import Mathlib

/-!
Verification of the CSV bulk-ingestion pipeline (`readCSVChunk`,
`processChunk`, `uploadCSV`) against its natural-language specification.

The Go source is shallowly embedded:
* one call to `csv.Reader.Read` is modelled as one `ReadEvent` — a
  successfully parsed record, or a non-EOF read error (EOF is the end of
  the event list);
* the chunking loop of `readCSVChunk` becomes the recursion `readLoop`;
* the per-row parsing loop of `processChunk` becomes `parseRecord` /
  `buildUsers`; a Go out-of-range slice index is the explicit outcome
  `ParseOutcome.panicked`;
* the semaphore-bounded worker pool of `uploadCSV` becomes the transition
  system `PoolStep` / `PoolReach`;
* Go's `float64` values are carried exactly as decimal mantissa/exponent
  pairs (`GoFloat`), since no claim depends on binary rounding.
-/

/-- One CSV data row, as the `[]string` produced by `csv.Reader.Read`. -/
abbrev Row := List String

/-- The result of one `reader.Read()` call that did return a value:
either a record or a non-EOF error.  End of file is modelled as the end of
the event list. -/
inductive ReadEvent
  | record (row : Row)
  | err
deriving DecidableEq

/-- The value carried by a Go `float64` field, kept exact: a decimal
number `mantissa * 10 ^ exp10` (unreduced, as read from the text), an
infinity, or NaN. -/
inductive GoFloat
  | num (mantissa : Int) (exp10 : Int)
  | inf (neg : Bool)
  | nan
deriving DecidableEq

/-- The struct mapped to the `user_data` table.  `ID` is auto-incremented
by the database; `processChunk` leaves it at the Go zero value `0`. -/
structure UserData where
  ID : Int := 0
  FirstName : String
  LastName : String
  Email : String
  Age : Int
  Gender : String
  Department : String
  Company : String
  Salary : GoFloat
  DateJoined : String
  IsActive : Bool
deriving DecidableEq

/-- Numeric value of a list of decimal digit characters
(most significant first). -/
def digitsToNat (l : List Char) : Nat :=
  l.foldl (fun acc c => acc * 10 + (c.toNat - 48)) 0

/-- Largest value of Go's 64-bit `int`. -/
def int64Max : Int := 9223372036854775807

/-- Smallest value of Go's 64-bit `int`. -/
def int64Min : Int := -9223372036854775808

/-- Models `strconv.Atoi` on a 64-bit platform: an optional sign followed
by at least one decimal digit, rejecting anything else and values outside
the `int64` range (Go reports `ErrSyntax` / `ErrRange`; the caller only
tests `err != nil`, so both are `none` here). -/
def atoi (s : String) : Option Int :=
  let cs := s.data
  let p : Bool × List Char :=
    match cs with
    | '-' :: rest => (true, rest)
    | '+' :: rest => (false, rest)
    | _ => (false, cs)
  if p.2 = [] then none
  else if p.2.all Char.isDigit then
    let v : Int := if p.1 then -(digitsToNat p.2 : Int) else (digitsToNat p.2 : Int)
    if int64Min ≤ v ∧ v ≤ int64Max then some v else none
  else none

/-- Splits a character list at the first separator: the part before it and,
when a separator occurs, the part after it. -/
def splitFirst (isSep : Char → Bool) : List Char → List Char × Option (List Char)
  | [] => ([], none)
  | c :: rest =>
    if isSep c then ([], some rest)
    else
      let p := splitFirst isSep rest
      (c :: p.1, p.2)

/-- Exponent part of a float literal: optional sign then at least one
digit. -/
def parseExpDigits (cs : List Char) : Option Int :=
  let p : Bool × List Char :=
    match cs with
    | '-' :: rest => (true, rest)
    | '+' :: rest => (false, rest)
    | _ => (false, cs)
  if p.2 = [] then none
  else if p.2.all Char.isDigit then
    some (if p.1 then -(digitsToNat p.2 : Int) else (digitsToNat p.2 : Int))
  else none

/-- Models the acceptance behaviour of `strconv.ParseFloat(s, 64)` on the
forms this program's data can take: optional sign, then either a
case-insensitive `inf`/`infinity` (or unsigned `nan`), or a decimal
mantissa with optional fractional part and optional exponent.  The value
is kept exact as a decimal mantissa/exponent pair; binary rounding,
hexadecimal floats, digit-separating underscores and overflow-to-`ErrRange`
are outside every claim and not modelled. -/
def parseFloat (s : String) : Option GoFloat :=
  let cs := s.data
  let p : Bool × List Char × Bool :=
    match cs with
    | '-' :: rest => (true, rest, true)
    | '+' :: rest => (false, rest, true)
    | _ => (false, cs, false)
  let lower := p.2.1.map Char.toLower
  if lower = "inf".data ∨ lower = "infinity".data then some (GoFloat.inf p.1)
  else if lower = "nan".data ∧ p.2.2 = false then some GoFloat.nan
  else
    let me := splitFirst (fun c => c == 'e' || c == 'E') p.2.1
    let ifr := splitFirst (fun c => c == '.') me.1
    let frac := ifr.2.getD []
    if ifr.1.all Char.isDigit ∧ frac.all Char.isDigit ∧ ifr.1 ++ frac ≠ [] then
      let m : Int := if p.1 then -(digitsToNat (ifr.1 ++ frac) : Int)
                     else (digitsToNat (ifr.1 ++ frac) : Int)
      match me.2 with
      | none => some (GoFloat.num m (-(frac.length : Int)))
      | some ecs =>
        match parseExpDigits ecs with
        | none => none
        | some e => some (GoFloat.num m (e - (frac.length : Int)))
    else none

/-- The boolean policy of `processChunk`: `isActive := record[10] == "true"`. -/
def parseIsActive (s : String) : Bool := s == "true"

/-- Outcome of the loop body of `processChunk` on one row. -/
inductive ParseOutcome
  | panicked
  | rejected
  | ok (u : UserData)
deriving DecidableEq

/-- The loop body of `processChunk` on one `record`: in Go evaluation
order it reads `record[4]` (`strconv.Atoi`), `record[8]`
(`strconv.ParseFloat`), `record[10]` and then `record[1,2,3,5,6,7,9]`; an
index beyond the slice length is a run-time panic (`panicked`), a numeric
parse error a `continue` (`rejected`).  Indices 1–9 are in range whenever
index 10 is, so they are read with `getD` below. -/
def parseRecord (record : Row) : ParseOutcome :=
  match record.get? 4 with
  | none => ParseOutcome.panicked
  | some ageStr =>
    match atoi ageStr with
    | none => ParseOutcome.rejected
    | some age =>
      match record.get? 8 with
      | none => ParseOutcome.panicked
      | some salStr =>
        match parseFloat salStr with
        | none => ParseOutcome.rejected
        | some salary =>
          match record.get? 10 with
          | none => ParseOutcome.panicked
          | some actStr =>
            ParseOutcome.ok
              { FirstName := record.getD 1 ""
                LastName := record.getD 2 ""
                Email := record.getD 3 ""
                Age := age
                Gender := record.getD 5 ""
                Department := record.getD 6 ""
                Company := record.getD 7 ""
                Salary := salary
                DateJoined := record.getD 9 ""
                IsActive := parseIsActive actStr }

/-- `parseRecord` as a partial map to the built record. -/
def parsedRecord (r : Row) : Option UserData :=
  match parseRecord r with
  | ParseOutcome.ok u => some u
  | _ => none

/-- The `users` slice built by `processChunk`'s loop over the chunk, in
order; `none` when some row's out-of-range index panics (the function then
unwinds before any insert). -/
def buildUsers : List Row → Option (List UserData)
  | [] => some []
  | r :: rest =>
    match parseRecord r with
    | ParseOutcome.panicked => none
    | ParseOutcome.rejected => buildUsers rest
    | ParseOutcome.ok u => (buildUsers rest).map (fun us => u :: us)

/-- The `CreateInBatches` invocations `processChunk` makes for one chunk
(argument list and batch size): none when a row panics, no call at all
when `users` is empty, otherwise exactly one call with the whole slice. -/
def processChunkCalls (records : List Row) (batchSize : Nat) :
    Option (List (List UserData × Nat)) :=
  (buildUsers records).map fun users =>
    if users.isEmpty then [] else [(users, batchSize)]

/-- The body of `readCSVChunk` after the header skip: repeatedly buffer
up to `chunkSize` records; a full buffer is sent on the channel; at EOF a
non-empty buffer is sent and the channel closed; a non-EOF read error
closes the channel at once, discarding the buffer.  Returns the chunks
sent, in order, and whether the error path was taken.  (The call sites use
`chunkSize ≥ 1`; for `chunkSize = 0` the Go loop would spin emitting empty
chunks forever, so every theorem below assumes a positive chunk size.) -/
def readLoop (chunkSize : Nat) : List ReadEvent → List Row → List (List Row) × Bool
  | [], buf => (if buf.isEmpty then [] else [buf], false)
  | ReadEvent.record r :: rest, buf =>
    let buf' := buf ++ [r]
    if buf'.length = chunkSize then
      let out := readLoop chunkSize rest []
      (buf' :: out.1, out.2)
    else
      readLoop chunkSize rest buf'
  | ReadEvent.err :: _, _ => ([], true)

/-- `readCSVChunk`: one `reader.Read()` for the header (its result,
error included, is discarded), then the chunking loop.  The first
component is the sequence of chunks sent on `ch`, the second whether the
mid-stream error path closed the channel. -/
def readCSVChunk (stream : List ReadEvent) (chunkSize : Nat) :
    List (List Row) × Bool :=
  readLoop chunkSize (stream.drop 1) []

/-- Written from the spec's words, for comparison with `readCSVChunk`:
split a row list into consecutive chunks of size `c`, the last possibly
partial. -/
def specChunks (c : Nat) (rows : List Row) : List (List Row) :=
  if rows.length = 0 then []
  else if c = 0 then []
  else if rows.length ≤ c then [rows]
  else rows.take c :: specChunks c (rows.drop c)
termination_by rows.length
decreasing_by simp [List.length_drop]; omega

/-- Written from the spec's words, for comparison with `readCSVChunk`'s
error path: only the complete chunks of size `c`, the trailing partial
buffer dropped. -/
def specChunksExact (c : Nat) (rows : List Row) : List (List Row) :=
  if c = 0 then []
  else if rows.length < c then []
  else rows.take c :: specChunksExact c (rows.drop c)
termination_by rows.length
decreasing_by simp [List.length_drop]; omega

/-- The JSON response written by `uploadCSV` on one request. -/
inductive UploadResponse
  | json (status : Nat) (fields : List (String × String))
deriving DecidableEq

/-- The fixed success message of `uploadCSV`. -/
def successMessage : String :=
  "CSV file processed successfully and data stored in database."

/-- `uploadCSV`: a form-file retrieval failure or an open failure yields a
400 error response; otherwise the handler starts the reader, drains the
channel spawning one `processChunk` goroutine per chunk, waits on the
wait-group, and then — independently of anything the reader or the
workers did, the mid-stream error path included — writes the fixed 200
success response.  `getFileErr` / `openErr` carry the collaborator error
strings; `stream` is the uploaded file's read-event sequence. -/
def uploadCSV (getFileErr openErr : Option String) (stream : List ReadEvent) :
    UploadResponse :=
  match getFileErr with
  | some e => UploadResponse.json 400 [("error", "Failed to get file"), ("details", e)]
  | none =>
    match openErr with
    | some e => UploadResponse.json 400 [("error", "Failed to open file"), ("details", e)]
    | none => UploadResponse.json 200 [("message", successMessage)]

/-- The `CreateInBatches` invocations of one whole upload, per chunk in
chunk order (`chunkSize = 5000`, `batchSize = 10000` as in `uploadCSV`);
the interleaving across chunks is decided by the scheduler and not
modelled. -/
def uploadCSVInsertCalls (stream : List ReadEvent) :
    List (Option (List (List UserData × Nat))) :=
  (readCSVChunk stream 5000).1.map fun chunk => processChunkCalls chunk 10000

/-- Phase of one spawned `processChunk` goroutine: `spawned` before
`semaphore <- struct{}{}`, `working` between acquire and release,
`done` after `<-semaphore`.  The flag records whether this chunk's
`CreateInBatches` call fails (the error is logged and the worker
continues, so it must not affect the release). -/
inductive WPhase
  | spawned (dbFails : Bool)
  | working (dbFails : Bool)
  | done
deriving DecidableEq

/-- Tokens currently held (`sem`, the buffered-channel occupancy) and the
phase of every spawned worker. -/
structure PoolState where
  sem : Nat
  phases : List WPhase
deriving DecidableEq

/-- The semaphore capacity of `uploadCSV`: `runtime.NumCPU() * 4`. -/
def poolCap (numCPU : Nat) : Nat := numCPU * 4

/-- Whether a worker is between its acquire and its release. -/
def isWorking (p : WPhase) : Bool :=
  match p with
  | WPhase.working _ => true
  | _ => false

/-- Number of workers currently holding a token. -/
def countWorking (ps : List WPhase) : Nat := ps.countP isWorking

/-- Interleaved execution of the `processChunk` goroutines: a `spawned`
worker may acquire a token only while the semaphore has room
(`sem < cap`; otherwise the send blocks); a `working` worker finishes by
releasing its token — whether or not its batch insert failed. -/
inductive PoolStep (cap : Nat) : PoolState → PoolState → Prop
  | acquire (s : PoolState) (i : Nat) (b : Bool)
      (hp : s.phases.get? i = some (WPhase.spawned b)) (hc : s.sem < cap) :
      PoolStep cap s ⟨s.sem + 1, s.phases.set i (WPhase.working b)⟩
  | finish (s : PoolState) (i : Nat) (b : Bool)
      (hp : s.phases.get? i = some (WPhase.working b)) :
      PoolStep cap s ⟨s.sem - 1, s.phases.set i WPhase.done⟩

/-- Initial pool state: all workers spawned, no token held; `chunks`
lists, per spawned worker, whether its insert will fail. -/
def initPool (chunks : List Bool) : PoolState :=
  ⟨0, chunks.map WPhase.spawned⟩

/-- States reachable by interleaving pool steps. -/
inductive PoolReach (cap : Nat) (s0 : PoolState) : PoolState → Prop
  | refl : PoolReach cap s0 s0
  | step {s t : PoolState} : PoolReach cap s0 s → PoolStep cap s t →
      PoolReach cap s0 t

lemma specChunks_nil (c : Nat) : specChunks c [] = [] := by
  rw [specChunks]; simp

lemma specChunks_of_le (c : Nat) (rows : List Row) (h0 : rows ≠ [])
    (h : rows.length ≤ c) : specChunks c rows = [rows] := by
  have h1 : ¬ rows.length = 0 := by simpa [List.length_eq_zero] using h0
  have h2 : ¬ c = 0 := by omega
  rw [specChunks, if_neg h1, if_neg h2, if_pos h]

lemma specChunks_of_gt (c : Nat) (rows : List Row) (hc : ¬ c = 0)
    (h : c < rows.length) :
    specChunks c rows = rows.take c :: specChunks c (rows.drop c) := by
  have h1 : ¬ rows.length = 0 := by omega
  have h3 : ¬ rows.length ≤ c := by omega
  rw [specChunks, if_neg h1, if_neg hc, if_neg h3]

lemma specChunksExact_of_lt (c : Nat) (rows : List Row)
    (h : rows.length < c) : specChunksExact c rows = [] := by
  have hc : ¬ c = 0 := by omega
  rw [specChunksExact, if_neg hc, if_pos h]

lemma specChunksExact_of_ge (c : Nat) (rows : List Row) (hc : ¬ c = 0)
    (h : c ≤ rows.length) :
    specChunksExact c rows = rows.take c :: specChunksExact c (rows.drop c) := by
  rw [specChunksExact, if_neg hc, if_neg (Nat.not_lt.mpr h)]

lemma readLoop_cons_full (c : Nat) (r : Row) (rest : List ReadEvent)
    (buf : List Row) (h : (buf ++ [r]).length = c) :
    readLoop c (ReadEvent.record r :: rest) buf =
      ((buf ++ [r]) :: (readLoop c rest []).1, (readLoop c rest []).2) := by
  simp [readLoop, h]

lemma readLoop_cons_part (c : Nat) (r : Row) (rest : List ReadEvent)
    (buf : List Row) (h : ¬ (buf ++ [r]).length = c) :
    readLoop c (ReadEvent.record r :: rest) buf = readLoop c rest (buf ++ [r]) := by
  have h' : ¬ buf.length + 1 = c := by simpa using h
  simp [readLoop, h']

/-- A clean stream (no read error before EOF) makes `readLoop` emit
exactly the spec's chunking of the buffered-then-read rows. -/
theorem readLoop_clean (c : Nat) (rows : List Row) :
    ∀ buf : List Row, buf.length < c →
      readLoop c (rows.map ReadEvent.record) buf = (specChunks c (buf ++ rows), false) := by
  induction rows with
  | nil =>
    intro buf hb
    cases buf with
    | nil => simp [readLoop, specChunks_nil]
    | cons b bs =>
      rw [List.append_nil, specChunks_of_le c (b :: bs) (by simp) (le_of_lt hb)]
      simp [readLoop]
  | cons r rest ih =>
    intro buf hb
    rw [List.map_cons]
    by_cases hlen : (buf ++ [r]).length = c
    · rw [readLoop_cons_full c r _ buf hlen, ih [] (by simpa using (show 0 < c by omega))]
      simp only [List.nil_append]
      have hgoal : specChunks c (buf ++ r :: rest) = (buf ++ [r]) :: specChunks c rest := by
        cases rest with
        | nil =>
          rw [specChunks_nil, show buf ++ r :: ([] : List Row) = buf ++ [r] from rfl]
          rw [specChunks_of_le c (buf ++ [r]) (by simp) (le_of_eq hlen)]
        | cons x xs =>
          have hsplit : buf ++ r :: x :: xs = (buf ++ [r]) ++ (x :: xs) := by simp
          have hgt : c < (buf ++ r :: x :: xs).length := by
            simp only [List.length_append, List.length_cons] at hlen ⊢
            simp at hlen
            omega
          rw [hsplit, specChunks_of_gt c _ (by omega) (by rw [← hsplit]; exact hgt)]
          rw [List.take_left' hlen, List.drop_left' hlen]
      rw [hgoal]
    · rw [readLoop_cons_part c r _ buf hlen]
      rw [ih (buf ++ [r]) (by simp only [List.length_append, List.length_cons] at hlen ⊢; simp at hlen ⊢; omega)]
      rw [List.append_assoc, List.singleton_append]

/-- A read error makes `readLoop` emit only the chunks completed before
it, discarding the buffered partial chunk and everything after. -/
theorem readLoop_err (c : Nat) (rest : List ReadEvent) (rows : List Row) :
    ∀ buf : List Row, buf.length < c →
      readLoop c (rows.map ReadEvent.record ++ ReadEvent.err :: rest) buf =
        (specChunksExact c (buf ++ rows), true) := by
  induction rows with
  | nil =>
    intro buf hb
    rw [List.map_nil, List.nil_append, List.append_nil, specChunksExact_of_lt c buf hb]
    rfl
  | cons r rest' ih =>
    intro buf hb
    rw [List.map_cons, List.cons_append]
    by_cases hlen : (buf ++ [r]).length = c
    · rw [readLoop_cons_full c r _ buf hlen, ih [] (by simpa using (show 0 < c by omega))]
      simp only [List.nil_append]
      have hgoal : specChunksExact c (buf ++ r :: rest') = (buf ++ [r]) :: specChunksExact c rest' := by
        have hsplit : buf ++ r :: rest' = (buf ++ [r]) ++ rest' := by simp
        have hge : c ≤ ((buf ++ [r]) ++ rest').length := by
          rw [List.length_append, hlen]; omega
        rw [hsplit, specChunksExact_of_ge c _ (by omega) hge]
        rw [List.take_left' hlen, List.drop_left' hlen]
      rw [hgoal]
    · rw [readLoop_cons_part c r _ buf hlen]
      rw [ih (buf ++ [r]) (by simp only [List.length_append, List.length_cons] at hlen ⊢; simp at hlen ⊢; omega)]
      rw [List.append_assoc, List.singleton_append]

lemma specChunks_join_aux (c : Nat) (hc : 0 < c) :
    ∀ (n : Nat) (rows : List Row), rows.length ≤ n →
      (specChunks c rows).flatten = rows := by
  intro n
  induction n with
  | zero =>
    intro rows h
    have h0 : rows = [] := List.eq_nil_of_length_eq_zero (Nat.le_zero.mp h)
    rw [h0, specChunks_nil]; rfl
  | succ n ih =>
    intro rows h
    by_cases h0 : rows = []
    · rw [h0, specChunks_nil]; rfl
    · by_cases hle : rows.length ≤ c
      · rw [specChunks_of_le c rows h0 hle]; simp
      · push_neg at hle
        rw [specChunks_of_gt c rows (by omega) hle]
        rw [List.flatten_cons, ih (rows.drop c) (by simp [List.length_drop]; omega)]
        exact List.take_append_drop c rows

/-- The chunks' concatenation, in order, is exactly the row sequence. -/
lemma specChunks_join (c : Nat) (hc : 0 < c) (rows : List Row) :
    (specChunks c rows).flatten = rows :=
  specChunks_join_aux c hc rows.length rows le_rfl

lemma specChunks_mem_aux (c : Nat) (hc : 0 < c) :
    ∀ (n : Nat) (rows : List Row), rows.length ≤ n →
      ∀ ch ∈ specChunks c rows, ch ≠ [] ∧ ch.length ≤ c := by
  intro n
  induction n with
  | zero =>
    intro rows h
    have h0 : rows = [] := List.eq_nil_of_length_eq_zero (Nat.le_zero.mp h)
    rw [h0, specChunks_nil]; simp
  | succ n ih =>
    intro rows h
    by_cases h0 : rows = []
    · rw [h0, specChunks_nil]; simp
    · by_cases hle : rows.length ≤ c
      · rw [specChunks_of_le c rows h0 hle]
        intro ch hch
        rw [List.mem_singleton.mp hch]
        exact ⟨h0, hle⟩
      · push_neg at hle
        rw [specChunks_of_gt c rows (by omega) hle]
        intro ch hch
        rcases List.mem_cons.mp hch with h1 | h2
        · subst h1
          constructor
          · apply List.ne_nil_of_length_pos
            rw [List.length_take]
            omega
          · rw [List.length_take]; omega
        · exact ih (rows.drop c) (by simp [List.length_drop]; omega) ch h2

/-- Every chunk is non-empty and no larger than the chunk size. -/
lemma specChunks_mem (c : Nat) (hc : 0 < c) (rows : List Row) :
    ∀ ch ∈ specChunks c rows, ch ≠ [] ∧ ch.length ≤ c :=
  specChunks_mem_aux c hc rows.length rows le_rfl

lemma specChunks_full_aux (c : Nat) (hc : 0 < c) :
    ∀ (n : Nat) (rows : List Row), rows.length ≤ n →
      ∀ (i : Nat) (l : List Row), i + 1 < (specChunks c rows).length →
        (specChunks c rows).get? i = some l → l.length = c := by
  intro n
  induction n with
  | zero =>
    intro rows h i l hlt
    have h0 : rows = [] := List.eq_nil_of_length_eq_zero (Nat.le_zero.mp h)
    rw [h0, specChunks_nil] at hlt
    simp at hlt
  | succ n ih =>
    intro rows h i l hlt hget
    by_cases h0 : rows = []
    · rw [h0, specChunks_nil] at hlt; simp at hlt
    · by_cases hle : rows.length ≤ c
      · rw [specChunks_of_le c rows h0 hle] at hlt
        simp at hlt
      · push_neg at hle
        rw [specChunks_of_gt c rows (by omega) hle] at hlt hget
        cases i with
        | zero =>
          have hl : rows.take c = l := by
            simpa using hget
          rw [← hl, List.length_take]
          omega
        | succ j =>
          rw [List.get?_cons_succ] at hget
          rw [List.length_cons] at hlt
          exact ih (rows.drop c) (by simp [List.length_drop]; omega) j l
            (by omega) hget

/-- Every chunk except possibly the last has length exactly the chunk
size. -/
lemma specChunks_full (c : Nat) (hc : 0 < c) (rows : List Row) :
    ∀ (i : Nat) (l : List Row), i + 1 < (specChunks c rows).length →
      (specChunks c rows).get? i = some l → l.length = c :=
  specChunks_full_aux c hc rows.length rows le_rfl

lemma specChunks_length_aux (c : Nat) (hc : 0 < c) :
    ∀ (n : Nat) (rows : List Row), rows.length ≤ n →
      (specChunks c rows).length = (rows.length + c - 1) / c := by
  intro n
  induction n with
  | zero =>
    intro rows h
    have h0 : rows = [] := List.eq_nil_of_length_eq_zero (Nat.le_zero.mp h)
    rw [h0, specChunks_nil]
    simp [Nat.div_eq_of_lt (show c - 1 < c by omega)]
  | succ n ih =>
    intro rows h
    by_cases h0 : rows = []
    · rw [h0, specChunks_nil]
      simp [Nat.div_eq_of_lt (show c - 1 < c by omega)]
    · by_cases hle : rows.length ≤ c
      · rw [specChunks_of_le c rows h0 hle]
        have h1 : 1 ≤ rows.length := by
          have := List.length_pos.mpr h0
          omega
        have : (rows.length + c - 1) / c = 1 :=
          Nat.div_eq_of_lt_le (by omega) (by omega)
        rw [this]
        rfl
      · push_neg at hle
        rw [specChunks_of_gt c rows (by omega) hle]
        rw [List.length_cons, ih (rows.drop c) (by simp [List.length_drop]; omega)]
        rw [List.length_drop]
        have e1 : rows.length - c + c - 1 = rows.length - 1 := by omega
        have e2 : rows.length + c - 1 = (rows.length - 1) + c := by omega
        rw [e1, e2, Nat.add_div_right _ hc]

/-- Number of chunks = ceiling of rows / chunk size. -/
lemma specChunks_length (c : Nat) (hc : 0 < c) (rows : List Row) :
    (specChunks c rows).length = (rows.length + c - 1) / c :=
  specChunks_length_aux c hc rows.length rows le_rfl

/-- On a row of full width the loop body never hits an out-of-range
index: it either rejects the row or builds exactly one record. -/
lemma parseRecord_cases (r : Row) (h : 11 ≤ r.length) :
    parseRecord r = ParseOutcome.rejected ∨ ∃ u, parseRecord r = ParseOutcome.ok u := by
  obtain ⟨a4, h4⟩ : ∃ a, r[4]? = some a := by
    rw [List.getElem?_eq_getElem (show 4 < r.length by omega)]; exact ⟨_, rfl⟩
  obtain ⟨a8, h8⟩ : ∃ a, r[8]? = some a := by
    rw [List.getElem?_eq_getElem (show 8 < r.length by omega)]; exact ⟨_, rfl⟩
  obtain ⟨a10, h10⟩ : ∃ a, r[10]? = some a := by
    rw [List.getElem?_eq_getElem (show 10 < r.length by omega)]; exact ⟨_, rfl⟩
  cases hA : atoi a4 with
  | none => left; simp [parseRecord, h4, hA]
  | some age =>
    cases hF : parseFloat a8 with
    | none => left; simp [parseRecord, h4, hA, h8, hF]
    | some sal =>
      right
      refine ⟨{ FirstName := r.getD 1 "", LastName := r.getD 2 "",
                Email := r.getD 3 "", Age := age, Gender := r.getD 5 "",
                Department := r.getD 6 "", Company := r.getD 7 "",
                Salary := sal, DateJoined := r.getD 9 "",
                IsActive := parseIsActive a10 }, ?_⟩
      simp [parseRecord, h4, hA, h8, hF, h10]

/-- A record is built exactly when neither numeric parse fails. -/
lemma parseRecord_ok_iff (r : Row) (h : 11 ≤ r.length) :
    (∃ u, parseRecord r = ParseOutcome.ok u) ↔
      (atoi (r.getD 4 "")).isSome ∧ (parseFloat (r.getD 8 "")).isSome := by
  obtain ⟨a4, h4⟩ : ∃ a, r[4]? = some a := by
    rw [List.getElem?_eq_getElem (show 4 < r.length by omega)]; exact ⟨_, rfl⟩
  obtain ⟨a8, h8⟩ : ∃ a, r[8]? = some a := by
    rw [List.getElem?_eq_getElem (show 8 < r.length by omega)]; exact ⟨_, rfl⟩
  obtain ⟨a10, h10⟩ : ∃ a, r[10]? = some a := by
    rw [List.getElem?_eq_getElem (show 10 < r.length by omega)]; exact ⟨_, rfl⟩
  rw [List.getD_eq_getElem?_getD, List.getD_eq_getElem?_getD, h4, h8]
  cases hA : atoi a4 with
  | none => simp [parseRecord, h4, hA]
  | some age =>
    cases hF : parseFloat a8 with
    | none => simp [parseRecord, h4, hA, h8, hF]
    | some sal => simp [parseRecord, h4, hA, h8, hF, h10]

/-- The built record copies the identifying fields verbatim, with no
emptiness check. -/
lemma parseRecord_fields (r : Row) (u : UserData)
    (h : parseRecord r = ParseOutcome.ok u) :
    u.FirstName = r.getD 1 "" ∧ u.LastName = r.getD 2 "" ∧
      u.Email = r.getD 3 "" := by
  unfold parseRecord at h
  split at h
  · cases h
  · split at h
    · cases h
    · split at h
      · cases h
      · split at h
        · cases h
        · split at h
          · cases h
          · cases h
            exact ⟨rfl, rfl, rfl⟩

/-- On full-width rows the chunk loop runs to completion and keeps the
surviving rows in order. -/
lemma buildUsers_eq_filterMap (records : List Row)
    (h : ∀ r ∈ records, 11 ≤ r.length) :
    buildUsers records = some (records.filterMap parsedRecord) := by
  induction records with
  | nil => rfl
  | cons r rest ih =>
    have hr := h r (List.mem_cons_self r rest)
    have hrest : ∀ x ∈ rest, 11 ≤ x.length := fun x hx => h x (List.mem_cons_of_mem r hx)
    rcases parseRecord_cases r hr with hrej | ⟨u, hok⟩
    · simp [buildUsers, hrej, ih hrest, List.filterMap_cons, parsedRecord]
    · simp [buildUsers, hok, ih hrest, List.filterMap_cons, parsedRecord]

/-- `countP` after updating one position, in terms of the old and new
elements. -/
lemma countP_set {α : Type} (p : α → Bool) (l : List α) (i : Nat) (a old : α)
    (h : l.get? i = some old) :
    (l.set i a).countP p + (if p old then 1 else 0) =
      l.countP p + (if p a then 1 else 0) := by
  induction l generalizing i with
  | nil => simp at h
  | cons x xs ih =>
    cases i with
    | zero =>
      rw [List.get?_cons_zero] at h
      cases h
      simp only [List.set_cons_zero, List.countP_cons]
      omega
    | succ j =>
      rw [List.get?_cons_succ] at h
      simp only [List.set_cons_succ, List.countP_cons]
      have := ih j h
      omega

/-- The pool invariant: the semaphore occupancy is exactly the number of
workers between acquire and release, and never exceeds the capacity. -/
def PoolInv (cap : Nat) (s : PoolState) : Prop :=
  s.sem = countWorking s.phases ∧ s.sem ≤ cap

lemma poolInv_init (cap : Nat) (chunks : List Bool) :
    PoolInv cap (initPool chunks) := by
  constructor
  · show 0 = countWorking (chunks.map WPhase.spawned)
    unfold countWorking
    rw [List.countP_map]
    symm
    rw [List.countP_eq_zero]
    intro b hb
    simp [Function.comp, isWorking]
  · show 0 ≤ cap
    omega

lemma poolInv_step {cap : Nat} {s t : PoolState} (hInv : PoolInv cap s)
    (hstep : PoolStep cap s t) : PoolInv cap t := by
  obtain ⟨h1, h2⟩ := hInv
  cases hstep with
  | acquire i b hp hc =>
    have hcount := countP_set isWorking s.phases i (WPhase.working b)
      (WPhase.spawned b) hp
    simp [isWorking] at hcount
    constructor
    · show s.sem + 1 = countWorking (s.phases.set i (WPhase.working b))
      unfold countWorking at *
      omega
    · show s.sem + 1 ≤ cap
      omega
  | finish i b hp =>
    have hmem : WPhase.working b ∈ s.phases := List.get?_mem hp
    have hpos : 0 < countWorking s.phases := by
      unfold countWorking
      rw [List.countP_pos]
      exact ⟨_, hmem, rfl⟩
    have hcount := countP_set isWorking s.phases i WPhase.done
      (WPhase.working b) hp
    simp [isWorking] at hcount
    constructor
    · show s.sem - 1 = countWorking (s.phases.set i WPhase.done)
      unfold countWorking at *
      omega
    · show s.sem - 1 ≤ cap
      omega

lemma poolInv_reach {cap : Nat} {s0 s : PoolState} (h : PoolReach cap s0 s)
    (h0 : PoolInv cap s0) : PoolInv cap s := by
  induction h with
  | refl => exact h0
  | step hr hs ih => exact poolInv_step ih hs

/-- A record is only ever built from a row wide enough for every index
the loop body reads. -/
lemma parseRecord_ok_len (r : Row) (u : UserData)
    (h : parseRecord r = ParseOutcome.ok u) : 11 ≤ r.length := by
  unfold parseRecord at h
  split at h
  · cases h
  · split at h
    · cases h
    · split at h
      · cases h
      · split at h
        · cases h
        · split at h
          · cases h
          · rename_i actStr h10
            obtain ⟨hlt, _⟩ := List.get?_eq_some.mp h10
            omega

/-- The built record's boolean field is the policy applied to field 10. -/
lemma parseRecord_isActive (r : Row) (u : UserData)
    (h : parseRecord r = ParseOutcome.ok u) :
    u.IsActive = parseIsActive (r.getD 10 "") := by
  unfold parseRecord at h
  split at h
  · cases h
  · split at h
    · cases h
    · split at h
      · cases h
      · split at h
        · cases h
        · split at h
          · cases h
          · rename_i actStr h10
            cases h
            have hact : r.getD 10 "" = actStr := by
              rw [List.getD_eq_getElem?_getD, ← List.get?_eq_getElem?, h10]
              rfl
            rw [hact]

/-- The header row of the test CSV. -/
def headerRow : Row :=
  ["ID", "FirstName", "LastName", "Email", "Age", "Gender", "Department",
   "Company", "Salary", "DateJoined", "IsActive"]

/-- First valid data row of the test CSV. -/
def row1ex : Row :=
  ["1", "John", "Doe", "john@example.com", "30", "Male", "IT",
   "ExampleCorp", "50000", "2020-01-01", "true"]

/-- Second valid data row of the test CSV. -/
def row2ex : Row :=
  ["2", "Jane", "Doe", "jane@example.com", "28", "Female", "HR",
   "ExampleCorp", "45000", "2021-01-01", "true"]

/-- A row whose age field is not numeric: rejected by `processChunk`. -/
def badAgeRow : Row :=
  ["9", "Bob", "Ray", "bob@example.com", "abc", "Male", "IT",
   "ExampleCorp", "52000", "2020-03-01", "false"]

/-- A 10-field row whose age and salary both parse. -/
def tenFieldRow : Row :=
  ["5", "Ann", "Lee", "ann@example.com", "41", "Female", "HR",
   "ExampleCorp", "61000", "2021-05-10"]

/-- An 11-field row with empty first name, last name and email but valid
numerics. -/
def emptyIdRow : Row :=
  ["7", "", "", "", "30", "Male", "IT", "ExampleCorp", "50000",
   "2020-01-01", "true"]

/-- The record `processChunk` builds from `emptyIdRow`. -/
def emptyIdRecord : UserData :=
  { FirstName := "", LastName := "", Email := "", Age := 30,
    Gender := "Male", Department := "IT", Company := "ExampleCorp",
    Salary := GoFloat.num 50000 0, DateJoined := "2020-01-01",
    IsActive := true }

/-- A stream that fails mid-read: header, one good row, then a read
error. -/
def errStream : List ReadEvent :=
  [ReadEvent.record headerRow, ReadEvent.record row1ex, ReadEvent.err]

/-- C1: `readCSVChunk` skips exactly one header line, then emits chunks of
exactly `chunkSize` rows in file order while rows remain; at end of stream
it emits one final partial chunk iff at least one row is buffered, then
closes the channel; for chunk size 1 and two valid data rows it emits
exactly two chunks of length 1, in row order. -/
theorem C1_readCSVChunk_chunking (hdr : Row) (rows : List Row) (c : Nat)
    (hc : 0 < c) :
    readCSVChunk (ReadEvent.record hdr :: rows.map ReadEvent.record) c =
        (specChunks c rows, false)
    ∧ (specChunks c rows).flatten = rows
    ∧ (∀ ch ∈ specChunks c rows, ch ≠ [] ∧ ch.length ≤ c)
    ∧ (∀ (i : Nat) (l : List Row), i + 1 < (specChunks c rows).length →
        (specChunks c rows).get? i = some l → l.length = c)
    ∧ (specChunks c rows).length = (rows.length + c - 1) / c
    ∧ readCSVChunk (ReadEvent.record hdr :: [row1ex, row2ex].map ReadEvent.record) 1 =
        ([[row1ex], [row2ex]], false) := by
  refine ⟨?_, specChunks_join c hc rows, specChunks_mem c hc rows,
    specChunks_full c hc rows, specChunks_length c hc rows, ?_⟩
  · unfold readCSVChunk
    rw [show (ReadEvent.record hdr :: rows.map ReadEvent.record).drop 1 =
        rows.map ReadEvent.record from rfl]
    rw [readLoop_clean c rows [] (by simpa using hc)]
    simp
  · unfold readCSVChunk
    rw [show (ReadEvent.record hdr :: [row1ex, row2ex].map ReadEvent.record).drop 1 =
        [row1ex, row2ex].map ReadEvent.record from rfl]
    rw [readLoop_clean 1 [row1ex, row2ex] [] (by simp)]
    have h1 : specChunks 1 [row1ex, row2ex] = [[row1ex], [row2ex]] := by
      rw [specChunks_of_gt 1 [row1ex, row2ex] (by omega) (by simp)]
      simp only [List.take_cons_succ, List.take_zero, List.drop_succ_cons, List.drop_zero]
      rw [specChunks_of_le 1 [row2ex] (by simp) (by simp)]
    simp [h1]

theorem C1_readCSVChunk_chunking_witness :
    readCSVChunk (ReadEvent.record headerRow :: [row1ex, row2ex].map ReadEvent.record) 1 =
      ([[row1ex], [row2ex]], false) :=
  (C1_readCSVChunk_chunking headerRow [row1ex, row2ex] 1 (by decide)).2.2.2.2.2

/-- C3: the IsActive field parses to true iff the raw value is exactly the
literal "true"; every other value — "True", "1", the empty string — gives
false, never a parse failure; and the record built by the loop carries
exactly this policy applied to field 10. -/
theorem C3_isActive_policy :
    (∀ s : String, parseIsActive s = true ↔ s = "true")
    ∧ parseIsActive "True" = false ∧ parseIsActive "1" = false
    ∧ parseIsActive "" = false
    ∧ (∀ (r : Row) (u : UserData), parseRecord r = ParseOutcome.ok u →
        u.IsActive = parseIsActive (r.getD 10 "")) := by
  refine ⟨fun s => ?_, rfl, rfl, rfl, fun r u h => parseRecord_isActive r u h⟩
  simp [parseIsActive]

theorem C3_isActive_policy_witness :
    parseIsActive "True" = false ∧
      emptyIdRecord.IsActive = parseIsActive (emptyIdRow.getD 10 "") :=
  ⟨C3_isActive_policy.2.1,
   C3_isActive_policy.2.2.2.2 emptyIdRow emptyIdRecord (by decide)⟩

/-- C4: a non-EOF read error mid-stream closes the channel at once: only
the chunks completed before the error are published, the buffered partial
chunk and everything after are discarded — unlike the EOF path, which does
publish a non-empty partial chunk. -/
theorem C4_readCSVChunk_failFast (hdr : Row) (rows : List Row)
    (rest : List ReadEvent) (c : Nat) (hc : 0 < c) :
    readCSVChunk
        (ReadEvent.record hdr :: (rows.map ReadEvent.record ++ ReadEvent.err :: rest)) c =
      (specChunksExact c rows, true)
    ∧ (rows.length < c →
        readCSVChunk
            (ReadEvent.record hdr :: (rows.map ReadEvent.record ++ ReadEvent.err :: rest)) c =
          ([], true))
    ∧ (rows ≠ [] → rows.length ≤ c →
        readCSVChunk (ReadEvent.record hdr :: rows.map ReadEvent.record) c =
          ([rows], false)) := by
  have hmain : readCSVChunk
      (ReadEvent.record hdr :: (rows.map ReadEvent.record ++ ReadEvent.err :: rest)) c =
      (specChunksExact c rows, true) := by
    unfold readCSVChunk
    rw [show (ReadEvent.record hdr ::
        (rows.map ReadEvent.record ++ ReadEvent.err :: rest)).drop 1 =
        rows.map ReadEvent.record ++ ReadEvent.err :: rest from rfl]
    rw [readLoop_err c rest rows [] (by simpa using hc)]
    simp
  refine ⟨hmain, fun hlt => ?_, fun hne hle => ?_⟩
  · rw [hmain, specChunksExact_of_lt c rows hlt]
  · unfold readCSVChunk
    rw [show (ReadEvent.record hdr :: rows.map ReadEvent.record).drop 1 =
        rows.map ReadEvent.record from rfl]
    rw [readLoop_clean c rows [] (by simpa using hc)]
    rw [List.nil_append, specChunks_of_le c rows hne hle]

theorem C4_readCSVChunk_failFast_witness :
    readCSVChunk
        (ReadEvent.record headerRow :: ([row1ex].map ReadEvent.record ++ ReadEvent.err :: [])) 5000 =
      ([], true) :=
  (C4_readCSVChunk_failFast headerRow [row1ex] [] 5000 (by decide)).2.1 (by decide)

/-- C5 counterexample: a 10-field row whose age and salary both parse is
not rejected-and-returned-normally — the loop body hits the out-of-range
index 10 and panics. -/
theorem C5_shortRow_cex :
    tenFieldRow.length < 11
    ∧ (atoi (tenFieldRow.getD 4 "")).isSome
    ∧ (parseFloat (tenFieldRow.getD 8 "")).isSome
    ∧ parseRecord tenFieldRow = ParseOutcome.panicked := by
  decide

/-- C5 amended: a RawRow with fewer than 11 fields never yields a record:
it is rejected only when the age or salary field is present and fails to
parse, and otherwise the loop body performs an out-of-range access
(panics); fields beyond index 10 are ignored. -/
theorem C5_shortRow_amended :
    (∀ r : Row, r.length < 11 →
      parseRecord r = ParseOutcome.rejected ∨ parseRecord r = ParseOutcome.panicked)
    ∧ (∀ r : Row, parseRecord r = parseRecord (r.take 11)) := by
  constructor
  · intro r hlen
    cases ho : parseRecord r with
    | panicked => right; rfl
    | rejected => left; rfl
    | ok u => exact absurd (parseRecord_ok_len r u ho) (by omega)
  · intro r
    have e4 : (r.take 11).get? 4 = r.get? 4 := List.get?_take (by omega)
    have e8 : (r.take 11).get? 8 = r.get? 8 := List.get?_take (by omega)
    have e10 : (r.take 11).get? 10 = r.get? 10 := List.get?_take (by omega)
    have eg : ∀ i : Nat, i < 11 → (r.take 11).getD i "" = r.getD i "" := by
      intro i hi
      rw [List.getD_eq_getElem?_getD, List.getD_eq_getElem?_getD,
        List.getElem?_take_of_lt hi]
    unfold parseRecord
    simp only [e4, e8, e10, eg 1 (by omega), eg 2 (by omega), eg 3 (by omega),
      eg 5 (by omega), eg 6 (by omega), eg 7 (by omega), eg 9 (by omega)]

theorem C5_shortRow_amended_witness :
    tenFieldRow.length < 11 ∧
      (parseRecord tenFieldRow = ParseOutcome.rejected ∨
        parseRecord tenFieldRow = ParseOutcome.panicked) :=
  ⟨by decide, C5_shortRow_amended.1 tenFieldRow (by decide)⟩

/-- C6 counterexample: a full-width row with empty first name, last name
and email but parseable numerics is not rejected — the loop builds a
record with empty identifying fields and hands it to the batch insert. -/
theorem C6_emptyFields_cex :
    emptyIdRow.getD 1 "" = "" ∧ emptyIdRow.getD 2 "" = ""
    ∧ emptyIdRow.getD 3 "" = ""
    ∧ parseRecord emptyIdRow = ParseOutcome.ok emptyIdRecord
    ∧ buildUsers [emptyIdRow] = some [emptyIdRecord]
    ∧ processChunkCalls [emptyIdRow] 10000 = some [([emptyIdRecord], 10000)] := by
  decide

/-- C6 amended: only the age and salary fields are validated — a record is
built exactly when both numeric parses succeed, and the identifying fields
are copied verbatim, empty strings included. -/
theorem C6_emptyFields_amended (r : Row) (h : 11 ≤ r.length) :
    ((∃ u, parseRecord r = ParseOutcome.ok u) ↔
      (atoi (r.getD 4 "")).isSome ∧ (parseFloat (r.getD 8 "")).isSome)
    ∧ (∀ u, parseRecord r = ParseOutcome.ok u →
        u.FirstName = r.getD 1 "" ∧ u.LastName = r.getD 2 "" ∧
          u.Email = r.getD 3 "") :=
  ⟨parseRecord_ok_iff r h, fun u hu => parseRecord_fields r u hu⟩

theorem C6_emptyFields_amended_witness :
    ∃ u, parseRecord emptyIdRow = ParseOutcome.ok u :=
  (C6_emptyFields_amended emptyIdRow (by decide)).1.mpr (by decide)

/-- C7: when the validated record list of a chunk is empty — for instance
because every row was rejected — `processChunk` makes no `CreateInBatches`
call at all, and it never makes a call with an empty record list. -/
theorem C7_emptyBatch_skip (records : List Row) (b : Nat) :
    ((∀ r ∈ records, 11 ≤ r.length) →
      (∀ r ∈ records, parseRecord r = ParseOutcome.rejected) →
      processChunkCalls records b = some [])
    ∧ (∀ calls, processChunkCalls records b = some calls →
        ∀ l ∈ calls, l.1 ≠ []) := by
  constructor
  · intro hlen hrej
    unfold processChunkCalls
    rw [buildUsers_eq_filterMap records hlen]
    rw [List.filterMap_eq_nil_iff.mpr (fun r hr => by simp [parsedRecord, hrej r hr])]
    rfl
  · intro calls hcalls l hl
    unfold processChunkCalls at hcalls
    cases hbu : buildUsers records with
    | none => rw [hbu] at hcalls; cases hcalls
    | some us =>
      rw [hbu] at hcalls
      cases us with
      | nil =>
        simp at hcalls
        subst hcalls
        simp at hl
      | cons u us =>
        simp at hcalls
        subst hcalls
        rw [List.mem_singleton] at hl
        subst hl
        simp

theorem C7_emptyBatch_skip_witness :
    processChunkCalls [badAgeRow] 10000 = some [] :=
  (C7_emptyBatch_skip [badAgeRow] 10000).1 (by decide) (by decide)

/-- C8 counterexample: on a stream that fails mid-read the reader takes
the error path, yet the handler still answers 200 with the fixed success
message — no failure report and no summary counts of any kind. -/
theorem C8_upload_response_cex :
    (readCSVChunk errStream 5000).2 = true
    ∧ uploadCSV none none errStream =
        UploadResponse.json 200 [("message", successMessage)] :=
  ⟨by decide, rfl⟩

/-- C8 amended: the response does not reflect the run — whenever the
uploaded file is retrieved and opened, `uploadCSV` answers 200 with one
fixed message and no counts, for every stream, a failing one included;
only form-file retrieval or open failures give a 400 error response. -/
theorem C8_upload_response_amended :
    (∀ stream : List ReadEvent,
      uploadCSV none none stream =
        UploadResponse.json 200 [("message", successMessage)])
    ∧ (∀ s1 s2 : List ReadEvent, uploadCSV none none s1 = uploadCSV none none s2)
    ∧ (∀ (e : String) (stream : List ReadEvent),
        uploadCSV (some e) none stream =
          UploadResponse.json 400 [("error", "Failed to get file"), ("details", e)])
    ∧ (∀ (e : String) (stream : List ReadEvent),
        uploadCSV none (some e) stream =
          UploadResponse.json 400 [("error", "Failed to open file"), ("details", e)]) :=
  ⟨fun _ => rfl, fun _ _ => rfl, fun _ _ => rfl, fun _ _ => rfl⟩

/-- C9: in every reachable interleaving of the worker pool, the number of
workers actively parsing and writing never exceeds the admission capacity
`numCPU * 4` (even when more chunks than tokens were spawned), the
outstanding tokens are exactly the active workers, and when every worker
has finished — those whose batch insert failed included — every token has
been released. -/
theorem C9_pool_bound (numCPU : Nat) (chunks : List Bool) (s : PoolState)
    (h : PoolReach (poolCap numCPU) (initPool chunks) s) :
    countWorking s.phases ≤ poolCap numCPU
    ∧ s.sem = countWorking s.phases
    ∧ ((∀ p ∈ s.phases, p = WPhase.done) → s.sem = 0) := by
  obtain ⟨h1, h2⟩ := poolInv_reach h (poolInv_init (poolCap numCPU) chunks)
  refine ⟨by omega, h1, fun hdone => ?_⟩
  have hzero : countWorking s.phases = 0 := by
    unfold countWorking
    rw [List.countP_eq_zero]
    intro p hp
    rw [hdone p hp]
    simp [isWorking]
  omega

theorem C9_pool_bound_witness :
    countWorking (PoolState.mk 0 [WPhase.done, WPhase.done]).phases ≤ poolCap 1
    ∧ (PoolState.mk 0 [WPhase.done, WPhase.done]).sem =
        countWorking (PoolState.mk 0 [WPhase.done, WPhase.done]).phases := by
  have s1 : PoolStep (poolCap 1) (initPool [true, false])
      ⟨1, [WPhase.working true, WPhase.spawned false]⟩ :=
    PoolStep.acquire (initPool [true, false]) 0 true (by decide) (by decide)
  have s2 : PoolStep (poolCap 1) ⟨1, [WPhase.working true, WPhase.spawned false]⟩
      ⟨2, [WPhase.working true, WPhase.working false]⟩ :=
    PoolStep.acquire ⟨1, [WPhase.working true, WPhase.spawned false]⟩ 1 false
      (by decide) (by decide)
  have s3 : PoolStep (poolCap 1) ⟨2, [WPhase.working true, WPhase.working false]⟩
      ⟨1, [WPhase.done, WPhase.working false]⟩ :=
    PoolStep.finish ⟨2, [WPhase.working true, WPhase.working false]⟩ 0 true (by decide)
  have s4 : PoolStep (poolCap 1) ⟨1, [WPhase.done, WPhase.working false]⟩
      ⟨0, [WPhase.done, WPhase.done]⟩ :=
    PoolStep.finish ⟨1, [WPhase.done, WPhase.working false]⟩ 1 false (by decide)
  have htrace : PoolReach (poolCap 1) (initPool [true, false])
      ⟨0, [WPhase.done, WPhase.done]⟩ :=
    PoolReach.step (PoolReach.step (PoolReach.step (PoolReach.step
      PoolReach.refl s1) s2) s3) s4
  have h := C9_pool_bound 1 [true, false] ⟨0, [WPhase.done, WPhase.done]⟩ htrace
  exact ⟨h.1, h.2.1⟩

/-- C10: an empty stream, a header-only stream, and a stream whose single
header read fails all make the reader emit zero chunks and close the
channel without taking the error path; the upload handler still answers
the fixed success response and no insert call is made. -/
theorem C10_emptyStream_ok (c : Nat) (hc : 0 < c) :
    readCSVChunk [] c = ([], false)
    ∧ readCSVChunk [ReadEvent.record headerRow] c = ([], false)
    ∧ readCSVChunk [ReadEvent.err] c = ([], false)
    ∧ uploadCSV none none [] = UploadResponse.json 200 [("message", successMessage)]
    ∧ uploadCSVInsertCalls [] = [] :=
  ⟨rfl, rfl, rfl, rfl, rfl⟩

theorem C10_emptyStream_ok_witness :
    readCSVChunk [] 5000 = ([], false) :=
  (C10_emptyStream_ok 5000 (by decide)).1
